import Mathlib

/-!
# Verification of the pressure-balance calculation core (`src/app.py`)

Shallow embedding of the numeric calculation functions of the Streamlit app:
`interp_force`, `adjuster_authority_percent`, `critical_damping_target`,
`area_mm2`, `pressure_bar` and `compute_table`.  Python floats are modelled
as elements of a linear ordered field (instantiated at `ℚ` for concrete
evaluations and at `ℝ` where the code uses `math.sqrt` / `math.pi`).
A Python runtime error (`IndexError` on an empty sample list,
`ZeroDivisionError`) is modelled as `none`.
-/

namespace PressureBalance

variable {α : Type} [LinearOrderedField α]

/-- Comparison used by `sorted(pts, key=lambda x: x[0])`: order two sample
points by their velocity (first) component. -/
def velLE (p q : α × α) : Prop := p.1 ≤ q.1

instance : DecidableRel (velLE (α := α)) :=
  fun p q => inferInstanceAs (Decidable (p.1 ≤ q.1))

instance : IsTotal (α × α) (velLE (α := α)) := ⟨fun p q => le_total p.1 q.1⟩

instance : IsTrans (α × α) (velLE (α := α)) := ⟨fun _ _ _ h1 h2 => le_trans h1 h2⟩

/-- `sorted(pts, key=lambda x: x[0])` — Python's stable sort by velocity,
modelled by insertion sort with the non-strict comparison `velLE` (a stable
sort is determined by its comparison key, so this computes the same list). -/
def sortPts (pts : List (α × α)) : List (α × α) := List.insertionSort velLE pts

/-- `xs[-1]` on the nonempty list `p :: l`: the last element. -/
def lastPt (p : α × α) : List (α × α) → α × α
  | [] => p
  | q :: l => lastPt q l

/-- The scan `for i in range(len(xs)-1): if xs[i] <= v <= xs[i+1]: ...` of
`interp_force` (src/app.py lines 241-245) over the sorted point list,
followed by the fall-through `return ys[-1]`.  The linear-interpolation
expression `t = (v - xs[i]) / (xs[i+1] - xs[i])` raises `ZeroDivisionError`
when the two bracketing velocities coincide; that outcome is `none`. -/
def segScan (v : α) : List (α × α) → Option α
  | [] => none
  | [p] => some p.2
  | p :: q :: l =>
    if p.1 ≤ v ∧ v ≤ q.1 then
      if q.1 - p.1 = 0 then none
      else
        some (p.2 * (1 - (v - p.1) / (q.1 - p.1)) +
              q.2 * ((v - p.1) / (q.1 - p.1)))
    else segScan v (q :: l)

/-- Body of `interp_force` after sorting: the two boundary checks
`if v <= xs[0]` and `if v >= xs[-1]`, then the segment scan.  An empty
sample list makes the Python code fail on `xs[0]` (`none` here). -/
def interpSorted (v : α) : List (α × α) → Option α
  | [] => none
  | p :: l =>
    if v ≤ p.1 then some p.2
    else if (lastPt p l).1 ≤ v then some (lastPt p l).2
    else segScan v (p :: l)

/-- `interp_force(v, pts)` (src/app.py lines 233-245). -/
def interp_force (v : α) (pts : List (α × α)) : Option α :=
  interpSorted v (sortPts pts)

/-- `adjuster_authority_percent(vref, adj_pts, full_pts)`
(src/app.py lines 248-253): interpolate both channels at `vref`, return `0.0`
when the full force is `<= 0`, else `100.0 * (adj / full)`. -/
def adjuster_authority_percent (vref : α) (adj_pts full_pts : List (α × α)) :
    Option α := do
  let adj ← interp_force vref adj_pts
  let full ← interp_force vref full_pts
  if full ≤ 0 then pure 0 else pure (100 * (adj / full))

/-- `pressure_bar(force_n, area_mm2_val)` (src/app.py lines 274-279):
`0.0` when the area is `<= 0`, else `(force_n / (area_mm2_val * 1e-6)) / 1e5`. -/
def pressure_bar (force_n area_mm2_val : α) : α :=
  if area_mm2_val ≤ 0 then 0
  else (force_n / (area_mm2_val * (1 / 1000000))) / 100000

end PressureBalance

namespace PressureBalance

/-- `area_mm2(d_mm)` (src/app.py lines 269-271): `r = d_mm / 2.0;
return math.pi * r * r`.  There is no branch on the sign of `d_mm`. -/
noncomputable def area_mm2 (d_mm : ℝ) : ℝ :=
  let r := d_mm / 2
  Real.pi * r * r

/-- `critical_damping_target(zeta, spring_rate_n_per_mm, mass_kg, velocity_mps)`
(src/app.py lines 256-266): `k = spring_rate * 1000.0`; `0.0` when `k <= 0`
or `mass_kg <= 0`; else `zeta * (2.0 * sqrt(k * mass_kg)) * velocity_mps`. -/
noncomputable def critical_damping_target
    (zeta spring_rate_n_per_mm mass_kg velocity_mps : ℝ) : ℝ :=
  let k := spring_rate_n_per_mm * 1000
  if k ≤ 0 ∨ mass_kg ≤ 0 then 0
  else zeta * (2 * Real.sqrt (k * mass_kg)) * velocity_mps

/-- One row of the table built by `compute_table`
(src/app.py line 315: `[label, v, adj, full, pct, z_force]`). -/
structure TableRow where
  mode : String
  velocity : ℝ
  adjForce : ℝ
  fullForce : ℝ
  adjPct : ℝ
  zetaTargetF : ℝ

/-- The row-building loop of `compute_table` (src/app.py lines 308-315) over
an explicit list of grid velocities: skip `v == 0`, interpolate both
channels, compute the inline percentage `0.0 if full <= 0 else
100.0 * adj / full` and the ζ-target force. -/
noncomputable def computeRows (adj_pts full_pts : List (ℝ × ℝ)) (label : String)
    (zeta spring_rate mass_kg : ℝ) : List ℝ → Option (List TableRow)
  | [] => some []
  | v :: vs =>
    if v = 0 then computeRows adj_pts full_pts label zeta spring_rate mass_kg vs
    else do
      let adj ← interp_force v adj_pts
      let full ← interp_force v full_pts
      let rest ← computeRows adj_pts full_pts label zeta spring_rate mass_kg vs
      some (⟨label, v, adj, full,
             if full ≤ 0 then 0 else 100 * adj / full,
             critical_damping_target zeta spring_rate mass_kg v⟩ :: rest)

/-- `np.arange(0.0, v_max + 1e-9, v_step)` (src/app.py line 306): the
`⌈(stop - start) / step⌉` values `i * v_step` for `0 ≤ i < n`. -/
noncomputable def velocityGrid (v_max v_step : ℝ) : List ℝ :=
  (List.range ⌈(v_max + 1 / 1000000000) / v_step⌉₊).map fun i : ℕ => (i : ℝ) * v_step

/-- `compute_table(adj_pts, full_pts, label, zeta, spring_rate, mass_kg,
v_max, v_step)` (src/app.py lines 305-319), as the list of rows of the
returned data frame. -/
noncomputable def compute_table (adj_pts full_pts : List (ℝ × ℝ)) (label : String)
    (zeta spring_rate mass_kg v_max v_step : ℝ) : Option (List TableRow) :=
  computeRows adj_pts full_pts label zeta spring_rate mass_kg
    (velocityGrid v_max v_step)

/-- Modelled from the spec: the closed model enumeration of §4.3 / §9 for the
Curve Fitter, which is absent from `src/app.py` (the `curve_model` selector
in `render_tools`, line 615, is never consumed). -/
inductive CurveModel
  | Linear
  | Quadratic
  | Cubic

/-- Modelled from the spec (§4.3): the requested polynomial degree of a
model — Linear→1, Quadratic→2, Cubic→3. -/
def requestedDegree : CurveModel → Nat
  | .Linear => 1
  | .Quadratic => 2
  | .Cubic => 3

/-- Dot product of two coefficient lists (zero-padded to the shorter). -/
def dotQ (u w : List ℚ) : ℚ := (List.zipWith (fun a b => a * b) u w).sum

/-- The monomial row `[1, x, x^2, …, x^deg]`. -/
def polyRow (deg : Nat) (x : ℚ) : List ℚ := (List.range (deg + 1)).map fun j => x ^ j

/-- Find the first row of an augmented matrix whose leading entry is nonzero
and split it off (partial pivoting for exact arithmetic). -/
def pivotSplit : List (List ℚ) → Option (List ℚ × List (List ℚ))
  | [] => none
  | row :: rest =>
    match row with
    | [] => none
    | c :: _ =>
      if c ≠ 0 then some (row, rest)
      else (pivotSplit rest).map fun pr => (pr.1, row :: pr.2)

/-- Eliminate the leading column of `row` using `pivot`, returning the
shortened row. -/
def elimRow (pivot row : List ℚ) : List ℚ :=
  match pivot, row with
  | p :: ps, c :: cs => List.zipWith (fun a b => b - c / p * a) ps cs
  | _, _ => []

/-- Solve an `n`-variable linear system given as augmented rows (each of
length `n + 1`) by Gaussian elimination with back substitution; a singular
system yields the zero vector (unreachable for the positive-definite normal
equations produced by a degree-capped fit). -/
def gaussSolve : Nat → List (List ℚ) → List ℚ
  | 0, _ => []
  | n + 1, rows =>
    match pivotSplit rows with
    | none => List.replicate (n + 1) 0
    | some (pivot, rest) =>
      let sub := gaussSolve n (rest.map (elimRow pivot))
      match pivot with
      | p :: tail => (tail.getLastD 0 - dotQ tail.dropLast sub) / p :: sub
      | [] => []

/-- Modelled from the spec (§4.3, degree-capping rule): the effective fit
degree for a requested degree `d` — `max(0, k − 1)` when the number `k` of
distinct x-values satisfies `k ≤ d`, else `d`. -/
def fitDegree (x_samples : List ℚ) (d : Nat) : Nat :=
  if x_samples.dedup.length ≤ d then x_samples.dedup.length - 1 else d

/-- Modelled from the spec (§4.3): the coefficients of the ordinary
least-squares polynomial of degree `deg`, via the normal equations
`(AᵀA) c = Aᵀ y` for the Vandermonde matrix `A`, solved exactly over `ℚ`. -/
def olsCoeffs (x_samples y_samples : List ℚ) (deg : Nat) : List ℚ :=
  let aug := (List.range (deg + 1)).map fun i =>
    ((List.range (deg + 1)).map fun j => ((x_samples.map fun x => x ^ (i + j)).sum)) ++
      [((x_samples.zip y_samples).map fun p => p.1 ^ i * p.2).sum]
  gaussSolve (deg + 1) aug

/-- Modelled from the spec (§4.3): `fit_curve(x_samples, y_samples,
requested_model) -> (curve, degree_used)` is absent from `src/app.py`.
Per the spec, the requested degree (Linear→1, Quadratic→2, Cubic→3) is
capped by `fitDegree`; when the degree resolves to 0 the curve is the
constant mean of `y_samples` (a flat fit, not a failure); otherwise it is
the ordinary least-squares polynomial of the capped degree. -/
def fit_curve (x_samples y_samples : List ℚ) (requested_model : CurveModel) :
    (ℚ → ℚ) × Nat :=
  let deg := fitDegree x_samples (requestedDegree requested_model)
  (if deg = 0 then fun _ => y_samples.sum / (y_samples.length : ℚ)
   else fun w => dotQ (olsCoeffs x_samples y_samples deg) (polyRow deg w),
   deg)

/-- The table row `compute_table` builds for a grid velocity `v` (with the
interpolated forces extracted from their `Option`s; on the inputs where the
loop body runs without a Python error the options are `some`). -/
noncomputable def rowOf (adj_pts full_pts : List (ℝ × ℝ)) (label : String)
    (zeta spring_rate mass_kg v : ℝ) : TableRow :=
  let adj := (interp_force v adj_pts).getD 0
  let full := (interp_force v full_pts).getD 0
  ⟨label, v, adj, full, if full ≤ 0 then 0 else 100 * adj / full,
   critical_damping_target zeta spring_rate mass_kg v⟩

end PressureBalance

namespace PressureBalance

variable {α : Type} [LinearOrderedField α]

theorem sortPts_sorted (pts : List (α × α)) : (sortPts pts).Sorted velLE :=
  List.sorted_insertionSort velLE pts

theorem sortPts_perm (pts : List (α × α)) : List.Perm (sortPts pts) pts :=
  List.perm_insertionSort velLE pts

theorem lastPt_mem (p : α × α) (l : List (α × α)) : lastPt p l ∈ p :: l := by
  induction l generalizing p with
  | nil => simp [lastPt]
  | cons q l ih => exact List.mem_cons_of_mem p (ih q)

theorem lastPt_concat (p r : α × α) (l : List (α × α)) :
    lastPt p (l ++ [r]) = r := by
  induction l generalizing p with
  | nil => rfl
  | cons q l ih => exact ih q

theorem getLast?_eq_lastPt (p : α × α) (l : List (α × α)) :
    (p :: l).getLast? = some (lastPt p l) := by
  induction l generalizing p with
  | nil => rfl
  | cons q l ih => rw [List.getLast?_cons_cons]; exact ih q

theorem mem_of_getLast?Pts {l : List (α × α)} {r : α × α}
    (h : l.getLast? = some r) : r ∈ l := by
  cases l with
  | nil => simp at h
  | cons p t =>
    rw [getLast?_eq_lastPt] at h
    exact (Option.some_inj.mp h) ▸ lastPt_mem p t

theorem le_lastPt_of_sorted :
    ∀ {p : α × α} {l : List (α × α)}, (p :: l).Sorted velLE →
      ∀ q ∈ p :: l, q.1 ≤ (lastPt p l).1 := by
  intro p l
  induction l generalizing p with
  | nil =>
    intro _ q hq
    rcases List.mem_singleton.mp hq with rfl
    exact le_refl _
  | cons r l ih =>
    intro hs q hq
    have hpr : p.1 ≤ r.1 := List.rel_of_sorted_cons hs r (List.mem_cons_self r l)
    have hlast : lastPt p (r :: l) = lastPt r l := rfl
    rcases List.mem_cons.mp hq with rfl | hq
    · exact hlast ▸ le_trans hpr (ih hs.of_cons r (List.mem_cons_self r l))
    · exact hlast ▸ ih hs.of_cons q hq

theorem le_getLast?_of_sorted {l : List (α × α)} {q r : α × α}
    (hs : l.Sorted velLE) (hq : q ∈ l) (hr : l.getLast? = some r) :
    q.1 ≤ r.1 := by
  cases l with
  | nil => simp at hq
  | cons p t =>
    rw [getLast?_eq_lastPt] at hr
    exact (Option.some_inj.mp hr) ▸ le_lastPt_of_sorted hs q hq

theorem segScan_isSome {v : α} :
    ∀ {p : α × α} {l : List (α × α)}, p.1 < v →
      (segScan v (p :: l)).isSome = true := by
  intro p l
  induction l generalizing p with
  | nil => intro _; simp [segScan]
  | cons q l ih =>
    intro hp
    by_cases hc : p.1 ≤ v ∧ v ≤ q.1
    · have hne : q.1 - p.1 ≠ 0 :=
        sub_ne_zero_of_ne (ne_of_gt (lt_of_lt_of_le hp hc.2))
      simp [segScan, hc, hne]
    · have hq : q.1 < v := by
        by_contra hle
        exact hc ⟨le_of_lt hp, le_of_not_lt hle⟩
      simp only [segScan, if_neg hc]
      exact ih hq

/-- The first bracketing segment the scan meets wins: if every point of the
prefix has velocity strictly below `v` and `p.1 < v ≤ q.1`, the scan returns
the linear interpolation on `[p.1, q.1]`. -/
theorem segScan_bracket {v : α} (p q : α × α) (l₂ : List (α × α)) :
    ∀ l₁ : List (α × α), (∀ a ∈ l₁, a.1 < v) → p.1 < v → v ≤ q.1 →
      segScan v (l₁ ++ p :: q :: l₂) =
        some (p.2 * (1 - (v - p.1) / (q.1 - p.1)) +
              q.2 * ((v - p.1) / (q.1 - p.1))) := by
  intro l₁
  induction l₁ with
  | nil =>
    intro _ hp hq
    have hne : q.1 - p.1 ≠ 0 :=
      sub_ne_zero_of_ne (ne_of_gt (lt_of_lt_of_le hp hq))
    simp [segScan, le_of_lt hp, hq, hne]
  | cons a l₁ ih =>
    intro h hp hq
    have ihs := ih (fun x hx => h x (List.mem_cons_of_mem a hx)) hp hq
    cases l₁ with
    | nil =>
      have hnotc : ¬(a.1 ≤ v ∧ v ≤ p.1) := fun hc => absurd hc.2 (not_le_of_lt hp)
      simpa [segScan, hnotc] using ihs
    | cons c l₁ =>
      have hc : c.1 < v := h c (List.mem_cons_of_mem a (List.mem_cons_self c l₁))
      have hnotc : ¬(a.1 ≤ v ∧ v ≤ c.1) := fun hcc => absurd hcc.2 (not_le_of_lt hc)
      simpa [segScan, hnotc] using ihs

/-- Evaluation of the sorted-list interpolation body strictly inside the
sample range, at a bracketing pair of consecutive sorted points. -/
theorem interpSorted_bracket {v : α} {l₁ l₂ : List (α × α)} {p q : α × α}
    (hsort : (l₁ ++ p :: q :: l₂).Sorted velLE)
    (hp : p.1 < v) (hq : v ≤ q.1)
    (hlast : ∀ r, (l₁ ++ p :: q :: l₂).getLast? = some r → v < r.1) :
    interpSorted v (l₁ ++ p :: q :: l₂) =
      some (p.2 * (1 - (v - p.1) / (q.1 - p.1)) +
            q.2 * ((v - p.1) / (q.1 - p.1))) := by
  have hpre : ∀ a ∈ l₁, a.1 < v := by
    intro a ha
    have := (List.pairwise_append.mp hsort).2.2 a ha p (List.mem_cons_self p _)
    exact lt_of_le_of_lt this hp
  cases l₁ with
  | nil =>
    have hlast' : ¬((lastPt p (q :: l₂)).1 ≤ v) := by
      have := hlast (lastPt p (q :: l₂)) (by rw [List.nil_append, getLast?_eq_lastPt])
      exact not_le_of_lt this
    have hnv : ¬(v ≤ p.1) := not_le_of_lt hp
    simp only [List.nil_append, interpSorted, if_neg hnv, if_neg hlast']
    simpa using segScan_bracket p q l₂ [] (by simp) hp hq
  | cons a l₁ =>
    have hav : a.1 < v := hpre a (List.mem_cons_self a l₁)
    have hnv : ¬(v ≤ a.1) := not_le_of_lt hav
    have hlast' : ¬((lastPt a (l₁ ++ p :: q :: l₂)).1 ≤ v) := by
      have := hlast (lastPt a (l₁ ++ p :: q :: l₂))
        (by rw [List.cons_append, getLast?_eq_lastPt])
      exact not_le_of_lt this
    simp only [List.cons_append, interpSorted, if_neg hnv, if_neg hlast']
    simpa using segScan_bracket p q l₂ (a :: l₁)
      (fun x hx => hpre x hx) hp hq

theorem interp_force_isSome (v : α) {pts : List (α × α)} (h : pts ≠ []) :
    (interp_force v pts).isSome = true := by
  have hne : sortPts pts ≠ [] := by
    intro hnil
    exact h (List.Perm.eq_nil ((sortPts_perm pts).symm.trans (hnil ▸ List.Perm.refl _)))
  rcases hl : sortPts pts with _ | ⟨p, l⟩
  · exact absurd hl hne
  · unfold interp_force
    rw [hl]
    by_cases h1 : v ≤ p.1
    · simp [interpSorted, h1]
    · by_cases h2 : (lastPt p l).1 ≤ v
      · simp [interpSorted, h1, h2]
      · simp only [interpSorted, if_neg h1, if_neg h2]
        exact segScan_isSome (lt_of_not_le h1)

theorem sortPts_eq_of_const {x : α} :
    ∀ {S : List (α × α)}, (∀ q ∈ S, q.1 = x) → sortPts S = S := by
  intro S
  induction S with
  | nil => intro _; rfl
  | cons p S ih =>
    intro h
    have hS := ih (fun q hq => h q (List.mem_cons_of_mem p hq))
    show List.orderedInsert velLE p (List.insertionSort velLE S) = p :: S
    rw [show List.insertionSort velLE S = S from hS]
    cases S with
    | nil => rfl
    | cons q t =>
      have hle : velLE p q := by
        show p.1 ≤ q.1
        rw [h p (List.mem_cons_self p _), h q (List.mem_cons_of_mem p (List.mem_cons_self q t))]
      simp [List.orderedInsert, hle]

/-- If every point before the final one has velocity strictly below `v` and
the final point's velocity is at most `v`, the interpolation returns the
final point's force (either boundary branch of the Python code). -/
theorem interpSorted_last {v : α} (l' : List (α × α)) (r : α × α)
    (h : ∀ a ∈ l', a.1 < v) (hr : r.1 ≤ v) :
    interpSorted v (l' ++ [r]) = some r.2 := by
  cases l' with
  | nil =>
    by_cases hv : v ≤ r.1 <;> simp [interpSorted, lastPt, hv, hr]
  | cons a l₁ =>
    have hav : ¬(v ≤ a.1) := not_le_of_lt (h a (List.mem_cons_self a l₁))
    have hlast : lastPt a (l₁ ++ [r]) = r := lastPt_concat a r l₁
    simp [interpSorted, hav, hlast, hr]

end PressureBalance

namespace PressureBalance

variable {α : Type} [LinearOrderedField α]

/-- C1 (amended): `area_mm2` applies the formula `π·(d/2)²` unconditionally:
it equals `π·(d/2)²` for every diameter, and in particular is strictly
positive — not 0 — for `d < 0` (only `d = 0` yields 0). -/
theorem area_formula (d : ℝ) :
    area_mm2 d = Real.pi * (d / 2) ^ 2 ∧ (d < 0 → 0 < area_mm2 d) := by
  constructor
  · simp only [area_mm2]; ring
  · intro hd
    simp only [area_mm2]
    have h2 : d / 2 < 0 := by linarith
    have : 0 < (d / 2) * (d / 2) := mul_pos_of_neg_of_neg h2 h2
    have hpi := Real.pi_pos
    nlinarith

/-- C1 counterexample: at `d = -2 ≤ 0` the code returns `π`, not 0 — the
claimed defensive zero for non-positive diameters does not exist in
`area_mm2`. -/
theorem area_neg_counterexample : area_mm2 (-2) ≠ 0 := by
  have h : area_mm2 (-2) = Real.pi := by
    simp only [area_mm2]; norm_num
  rw [h]
  exact Real.pi_ne_zero

/-- C1 witness: the theorem instantiated at `d = 2` and `d = -2`. -/
theorem area_formula_witness :
    area_mm2 2 = Real.pi * (2 / 2) ^ 2 ∧ 0 < area_mm2 (-2) :=
  ⟨(area_formula 2).1, (area_formula (-2)).2 (by norm_num)⟩

/-- C7: `pressure_bar` returns 0 when the area is ≤ 0 (defensive zero, not a
fault) and otherwise exactly `(F / (A · 1e-6)) / 1e5`. -/
theorem pressure_bar_spec (force_n a : α) :
    (a ≤ 0 → pressure_bar force_n a = 0) ∧
    (0 < a → pressure_bar force_n a = (force_n / (a * (1 / 1000000))) / 100000) := by
  constructor
  · intro h; simp only [pressure_bar, if_pos h]
  · intro h; simp only [pressure_bar, if_neg (not_le.mpr h)]

/-- C7 witness: the theorem instantiated at `(5, 0)` and `(3, 2)` over `ℚ`. -/
theorem pressure_bar_spec_witness :
    pressure_bar (5 : ℚ) 0 = 0 ∧
    pressure_bar (3 : ℚ) 2 = ((3 : ℚ) / (2 * (1 / 1000000))) / 100000 :=
  ⟨(pressure_bar_spec 5 0).1 le_rfl, (pressure_bar_spec 3 2).2 (by norm_num)⟩

/-- C8: `critical_damping_target` returns 0 whenever `k = spring_rate·1000 ≤ 0`
or `mass ≤ 0`, and otherwise `ζ · (2·√(k·m)) · v`. -/
theorem critical_damping_spec (zeta spring_rate mass_kg velocity : ℝ) :
    (spring_rate * 1000 ≤ 0 ∨ mass_kg ≤ 0 →
      critical_damping_target zeta spring_rate mass_kg velocity = 0) ∧
    (0 < spring_rate * 1000 → 0 < mass_kg →
      critical_damping_target zeta spring_rate mass_kg velocity =
        zeta * (2 * Real.sqrt (spring_rate * 1000 * mass_kg)) * velocity) := by
  constructor
  · intro h; simp only [critical_damping_target, if_pos h]
  · intro hk hm
    have hcond : ¬(spring_rate * 1000 ≤ 0 ∨ mass_kg ≤ 0) := by
      push_neg; exact ⟨hk, hm⟩
    simp only [critical_damping_target, if_neg hcond]

/-- C8 witness: the theorem instantiated at a non-positive `k` and at
positive `k`, `m`. -/
theorem critical_damping_spec_witness :
    critical_damping_target 1 0 1 5 = 0 ∧
    critical_damping_target 1 1 1 2 = 1 * (2 * Real.sqrt (1 * 1000 * 1)) * 2 :=
  ⟨(critical_damping_spec 1 0 1 5).1 (by norm_num),
   (critical_damping_spec 1 1 1 2).2 (by norm_num) (by norm_num)⟩

/-- C4: for non-empty sample sets the adjuster-authority computation always
succeeds (no exception), and given the interpolated channel forces `a` and
`f` it returns `0` when `f ≤ 0` and `100·(a/f)` when `f > 0`. -/
theorem adjuster_authority_spec (vref : α) (adj_pts full_pts : List (α × α))
    (ha : adj_pts ≠ []) (hf : full_pts ≠ []) :
    (adjuster_authority_percent vref adj_pts full_pts).isSome = true ∧
    ∀ a f, interp_force vref adj_pts = some a →
      interp_force vref full_pts = some f →
      ((f ≤ 0 → adjuster_authority_percent vref adj_pts full_pts = some 0) ∧
       (0 < f →
         adjuster_authority_percent vref adj_pts full_pts = some (100 * (a / f)))) := by
  rcases Option.isSome_iff_exists.mp (interp_force_isSome vref ha) with ⟨a0, ha0⟩
  rcases Option.isSome_iff_exists.mp (interp_force_isSome vref hf) with ⟨f0, hf0⟩
  constructor
  · simp only [adjuster_authority_percent, ha0, hf0, Option.bind_eq_bind,
      Option.some_bind]
    by_cases h0 : f0 ≤ 0 <;> simp [h0]
  · intro a f haf hff
    rw [haf] at ha0
    rw [hff] at hf0
    constructor
    · intro h0
      simp [adjuster_authority_percent, haf, hff, h0]
    · intro hpos
      simp [adjuster_authority_percent, haf, hff, not_le.mpr hpos]

/-- C4 witness: concrete one-point channels over `ℚ` with positive full
force. -/
theorem adjuster_authority_spec_witness :
    (adjuster_authority_percent (0 : ℚ) [(0, 1)] [(0, 2)]).isSome = true ∧
    adjuster_authority_percent (0 : ℚ) [(0, 1)] [(0, 2)] =
      some (100 * ((1 : ℚ) / 2)) := by
  have h := adjuster_authority_spec (0 : ℚ) [(0, 1)] [(0, 2)]
    (by simp) (by simp)
  exact ⟨h.1, (h.2 1 2 (by decide) (by decide)).2 (by norm_num)⟩

/-- C6 (amended): for a non-empty sample set all of whose points share the
velocity `x`, the evaluation is total (no division by zero is reached) and
returns the first point's force for `v ≤ x` and the last point's force for
`v > x`; when all those forces coincide (e.g. a single sample), that single
force is returned for every `v`. -/
theorem interp_single_velocity (S : List (α × α)) (x v : α)
    (hne : S ≠ []) (hall : ∀ q ∈ S, q.1 = x) :
    (interp_force v S).isSome = true ∧
    (v ≤ x → interp_force v S = S.head?.map Prod.snd) ∧
    (x < v → interp_force v S = S.getLast?.map Prod.snd) := by
  have hsorted := sortPts_eq_of_const hall
  refine ⟨interp_force_isSome v hne, ?_, ?_⟩
  · intro hv
    cases S with
    | nil => exact absurd rfl hne
    | cons p t =>
      have hp : p.1 = x := hall p (List.mem_cons_self p t)
      rw [interp_force, hsorted]
      simp [interpSorted, hp ▸ hv]
  · intro hv
    cases S with
    | nil => exact absurd rfl hne
    | cons p t =>
      have hp : p.1 = x := hall p (List.mem_cons_self p t)
      have hnv : ¬(v ≤ p.1) := by rw [hp]; exact not_le_of_lt hv
      have hlp : (lastPt p t).1 = x := hall _ (lastPt_mem p t)
      have hlv : (lastPt p t).1 ≤ v := by rw [hlp]; exact le_of_lt hv
      rw [interp_force, hsorted, getLast?_eq_lastPt]
      simp [interpSorted, hnv, hlv]

/-- C6 counterexample: two points sharing velocity 1 but with forces 10 and
20 — no single force is returned for all query velocities (v = 0 yields 10,
v = 2 yields 20), refuting the claim as stated for duplicate-force sets. -/
theorem interp_single_velocity_counterexample :
    ¬ ∃ f : ℚ, ∀ v : ℚ, interp_force v [(1, 10), (1, 20)] = some f := by
  rintro ⟨f, hf⟩
  have h0 := hf 0
  have h2 := hf 2
  have e0 : interp_force (0 : ℚ) [(1, 10), (1, 20)] = some 10 := by decide
  have e2 : interp_force (2 : ℚ) [(1, 10), (1, 20)] = some 20 := by decide
  rw [e0] at h0
  rw [e2] at h2
  have a1 : (10 : ℚ) = f := Option.some_inj.mp h0
  have a2 : (20 : ℚ) = f := Option.some_inj.mp h2
  have : (10 : ℚ) = 20 := by rw [a1, a2]
  norm_num at this

/-- C6 witness: the amended theorem at the duplicate-force set
`[(1,10),(1,20)]`, for a query below and a query above the shared
velocity. -/
theorem interp_single_velocity_witness :
    (interp_force (0 : ℚ) [(1, 10), (1, 20)]).isSome = true ∧
    interp_force (0 : ℚ) [(1, 10), (1, 20)] =
      ([((1 : ℚ), (10 : ℚ)), (1, 20)]).head?.map Prod.snd ∧
    interp_force (2 : ℚ) [(1, 10), (1, 20)] =
      ([((1 : ℚ), (10 : ℚ)), (1, 20)]).getLast?.map Prod.snd :=
  ⟨(interp_single_velocity [(1, 10), (1, 20)] 1 0 (by simp) (by decide)).1,
   (interp_single_velocity [(1, 10), (1, 20)] 1 0 (by simp) (by decide)).2.1
     (by norm_num),
   (interp_single_velocity [(1, 10), (1, 20)] 1 2 (by simp) (by decide)).2.2
     (by norm_num)⟩

/-- C2 (amended): on a sample set whose velocities are pairwise distinct,
interpolation reproduces every sample point exactly:
`interp_force x S = some y` for every `(x, y) ∈ S`. -/
theorem interp_exactness (S : List (α × α)) (x y : α)
    (hdist : S.Pairwise (fun p q => p.1 ≠ q.1)) (hmem : (x, y) ∈ S) :
    interp_force x S = some y := by
  have hperm := sortPts_perm S
  have hsort := sortPts_sorted S
  have hmem' : (x, y) ∈ sortPts S := hperm.mem_iff.mpr hmem
  have hdist' : (sortPts S).Pairwise (fun p q : α × α => p.1 ≠ q.1) :=
    (hperm.pairwise_iff fun h => h.symm).mpr hdist
  have hstrict : (sortPts S).Pairwise (fun p q : α × α => p.1 < q.1) :=
    (hsort.and hdist').imp fun h => lt_of_le_of_ne h.1 h.2
  obtain ⟨s, t, hl⟩ := List.append_of_mem hmem'
  rcases s.eq_nil_or_concat with rfl | ⟨s', prev, rfl⟩
  · rw [interp_force, hl, List.nil_append]
    simp [interpSorted]
  · have hl2 : sortPts S = s' ++ prev :: (x, y) :: t := by
      rw [hl, List.concat_eq_append, List.append_assoc, List.singleton_append]
    have hstrict2 : (s' ++ prev :: (x, y) :: t).Pairwise
        (fun p q : α × α => p.1 < q.1) := hl2 ▸ hstrict
    have hsort2 : (s' ++ prev :: (x, y) :: t).Sorted velLE := hl2 ▸ hsort
    have hprev : prev.1 < x :=
      List.rel_of_pairwise_cons (List.pairwise_append.mp hstrict2).2.1
        (List.mem_cons_self _ _)
    have hprefix : ∀ a ∈ s' ++ [prev], a.1 < x := by
      intro a ha
      rcases List.mem_append.mp ha with ha' | ha'
      · exact (List.pairwise_append.mp hstrict2).2.2 a ha' (x, y)
          (List.mem_cons_of_mem prev (List.mem_cons_self _ _))
      · rcases List.mem_singleton.mp ha' with rfl
        exact hprev
    cases t with
    | nil =>
      have hsplit : s' ++ prev :: [(x, y)] = (s' ++ [prev]) ++ [(x, y)] := by
        rw [List.append_assoc, List.singleton_append]
      rw [interp_force, hl2, hsplit]
      exact interpSorted_last (s' ++ [prev]) (x, y) hprefix le_rfl
    | cons c t' =>
      have hxc : x < c.1 :=
        List.rel_of_pairwise_cons
          ((List.pairwise_append.mp hstrict2).2.1).of_cons
          (List.mem_cons_self c t')
      have hlast : ∀ r, (s' ++ prev :: (x, y) :: c :: t').getLast? = some r →
          x < r.1 := by
        intro r hr
        have hcr : c.1 ≤ r.1 := le_getLast?_of_sorted hsort2 (by simp) hr
        exact lt_of_lt_of_le hxc hcr
      have hres := interpSorted_bracket hsort2 hprev le_rfl hlast
      rw [interp_force, hl2, hres]
      have hne : x - prev.1 ≠ 0 := sub_ne_zero_of_ne (ne_of_gt hprev)
      show some (prev.2 * (1 - (x - prev.1) / (x - prev.1)) +
        y * ((x - prev.1) / (x - prev.1))) = some y
      rw [div_self hne]
      norm_num

/-- C2 counterexample: with the duplicate velocities `[(1,0),(1,5)]`, the
sample point `(1,5)` is not reproduced — querying at velocity 1 returns the
first duplicate's force 0, so exactness fails on duplicate-velocity sets. -/
theorem interp_exactness_counterexample :
    ((1 : ℚ), (5 : ℚ)) ∈ [((1 : ℚ), (0 : ℚ)), (1, 5)] ∧
    interp_force (1 : ℚ) [((1 : ℚ), (0 : ℚ)), (1, 5)] ≠ some 5 := by decide

/-- C2 witness: exactness at the sample point `(2,3)` of a distinct-velocity
set. -/
theorem interp_exactness_witness :
    interp_force (2 : ℚ) [(0, 1), (2, 3)] = some 3 :=
  interp_exactness [(0, 1), (2, 3)] 2 3 (by decide) (by decide)

/-- C5: flat extrapolation at both boundaries (queries at or beyond the
minimum/maximum sample velocity return the force carried at that boundary
velocity) and exact linear interpolation `y₁·(1−t) + y₂·t` with
`t = (v−x₁)/(x₂−x₁)` for `v` strictly between two consecutive sorted sample
velocities. -/
theorem interp_boundary_bracket (S : List (α × α)) (v : α) :
    (∀ x y, (x, y) ∈ S → (∀ q ∈ S, x ≤ q.1) → (∀ q ∈ S, q.1 = x → q.2 = y) →
      v ≤ x → interp_force v S = some y) ∧
    (∀ x y, (x, y) ∈ S → (∀ q ∈ S, q.1 ≤ x) → (∀ q ∈ S, q.1 = x → q.2 = y) →
      x ≤ v → interp_force v S = some y) ∧
    (∀ l₁ l₂ x1 y1 x2 y2, sortPts S = l₁ ++ (x1, y1) :: (x2, y2) :: l₂ →
      x1 < v → v < x2 →
      interp_force v S =
        some (y1 * (1 - (v - x1) / (x2 - x1)) + y2 * ((v - x1) / (x2 - x1)))) := by
  have hperm := sortPts_perm S
  have hsort := sortPts_sorted S
  refine ⟨?_, ?_, ?_⟩
  · intro x y hmem hmin huniq hv
    have hne : S ≠ [] := List.ne_nil_of_mem hmem
    cases hl : sortPts S with
    | nil =>
      rw [hl] at hperm
      exact absurd hperm.symm.eq_nil hne
    | cons p t =>
      rw [hl] at hperm hsort
      have hpS : p ∈ S := hperm.mem_iff.mp (List.mem_cons_self p t)
      have hmem' : (x, y) ∈ p :: t := hperm.mem_iff.mpr hmem
      have hp_le : p.1 ≤ x := by
        rcases List.mem_cons.mp hmem' with heq | hmemt
        · rw [← heq]
        · exact List.rel_of_sorted_cons hsort _ hmemt
      have hpx : p.1 = x := le_antisymm hp_le (hmin p hpS)
      have hv' : v ≤ p.1 := hpx ▸ hv
      rw [interp_force, hl]
      simp only [interpSorted, if_pos hv']
      rw [huniq p hpS hpx]
  · intro x y hmem hmax huniq hv
    have hne : S ≠ [] := List.ne_nil_of_mem hmem
    cases hl : sortPts S with
    | nil =>
      rw [hl] at hperm
      exact absurd hperm.symm.eq_nil hne
    | cons p t =>
      rw [hl] at hperm hsort
      have hpS : p ∈ S := hperm.mem_iff.mp (List.mem_cons_self p t)
      have hmem' : (x, y) ∈ p :: t := hperm.mem_iff.mpr hmem
      by_cases hvp : v ≤ p.1
      · have hpx : p.1 = x := le_antisymm (hmax p hpS) (le_trans hv hvp)
        rw [interp_force, hl]
        simp only [interpSorted, if_pos hvp]
        rw [huniq p hpS hpx]
      · have hrS : lastPt p t ∈ S := hperm.mem_iff.mp (lastPt_mem p t)
        have hrx : (lastPt p t).1 = x :=
          le_antisymm (hmax _ hrS) (le_lastPt_of_sorted hsort (x, y) hmem')
        have hrv : (lastPt p t).1 ≤ v := hrx ▸ hv
        rw [interp_force, hl]
        simp only [interpSorted, if_neg hvp, if_pos hrv]
        rw [huniq _ hrS hrx]
  · intro l₁ l₂ x1 y1 x2 y2 hl h1 h2
    have hsort' := hl ▸ hsort
    have hlast : ∀ r, (l₁ ++ (x1, y1) :: (x2, y2) :: l₂).getLast? = some r →
        v < r.1 := by
      intro r hr
      have hx2r : ((x2, y2) : α × α).1 ≤ r.1 :=
        le_getLast?_of_sorted hsort' (by simp) hr
      exact lt_of_lt_of_le h2 hx2r
    rw [interp_force, hl]
    exact interpSorted_bracket hsort' h1 (le_of_lt h2) hlast

/-- C5 witness: below-range, above-range, and in-range queries on
`[(0,1),(2,3)]`. -/
theorem interp_boundary_bracket_witness :
    interp_force (-1 : ℚ) [(0, 1), (2, 3)] = some 1 ∧
    interp_force (5 : ℚ) [(0, 1), (2, 3)] = some 3 ∧
    interp_force (1 : ℚ) [(0, 1), (2, 3)] =
      some ((1 : ℚ) * (1 - (1 - 0) / (2 - 0)) + 3 * ((1 - 0) / (2 - 0))) :=
  ⟨(interp_boundary_bracket [(0, 1), (2, 3)] (-1)).1 0 1 (by decide) (by decide)
     (by decide) (by norm_num),
   (interp_boundary_bracket [(0, 1), (2, 3)] 5).2.1 2 3 (by decide) (by decide)
     (by decide) (by norm_num),
   (interp_boundary_bracket [(0, 1), (2, 3)] 1).2.2 [] [] 0 1 2 3 (by decide)
     (by norm_num) (by norm_num)⟩

/-- C3 (spec-modelled): the degree actually used is `min(d, k−1)` when the
distinct-velocity count `k` satisfies `k ≤ d` and `d` otherwise; when the
degree resolves to 0 the fitted curve is the constant mean of the
y-samples. -/
theorem fit_curve_degree_capping (x_samples y_samples : List ℚ) (m : CurveModel)
    (hne : x_samples ≠ []) :
    (fit_curve x_samples y_samples m).2 =
      (if x_samples.dedup.length ≤ requestedDegree m
       then min (requestedDegree m) (x_samples.dedup.length - 1)
       else requestedDegree m) ∧
    ((fit_curve x_samples y_samples m).2 = 0 →
      ∀ w, (fit_curve x_samples y_samples m).1 w =
        y_samples.sum / (y_samples.length : ℚ)) := by
  have hk : x_samples.dedup.length ≠ 0 := by
    intro h0
    exact hne ((List.dedup_eq_nil x_samples).mp (List.length_eq_zero.mp h0))
  constructor
  · show fitDegree x_samples (requestedDegree m) = _
    unfold fitDegree
    split
    · next h => omega
    · rfl
  · intro h0 w
    have h0' : fitDegree x_samples (requestedDegree m) = 0 := h0
    show (if fitDegree x_samples (requestedDegree m) = 0 then
        fun _ : ℚ => y_samples.sum / (y_samples.length : ℚ)
      else fun w => dotQ (olsCoeffs x_samples y_samples
        (fitDegree x_samples (requestedDegree m)))
        (polyRow (fitDegree x_samples (requestedDegree m)) w)) w =
      y_samples.sum / (y_samples.length : ℚ)
    rw [if_pos h0']

/-- C3 witness: a duplicate-velocity set `[(5,5)]ᵛ` with requested Quadratic
degree — one distinct velocity caps the degree to 0 and the curve is the
constant mean `(1+3)/2`. -/
theorem fit_curve_degree_capping_witness :
    (fit_curve [5, 5] [1, 3] CurveModel.Quadratic).2 =
      (if [(5 : ℚ), 5].dedup.length ≤ requestedDegree CurveModel.Quadratic
       then min (requestedDegree CurveModel.Quadratic)
         ([(5 : ℚ), 5].dedup.length - 1)
       else requestedDegree CurveModel.Quadratic) ∧
    (fit_curve [5, 5] [1, 3] CurveModel.Quadratic).1 7 =
      [(1 : ℚ), 3].sum / (([(1 : ℚ), 3].length : ℚ)) := by
  have h := fit_curve_degree_capping [5, 5] [1, 3] CurveModel.Quadratic (by simp)
  exact ⟨h.1, h.2 (by rw [h.1]; decide) 7⟩

/-- On a velocity list without zeros and with nonempty sample sets, the
table loop succeeds and produces exactly one row per velocity, in order. -/
theorem computeRows_eq_map (adj_pts full_pts : List (ℝ × ℝ)) (label : String)
    (zeta spring_rate mass_kg : ℝ) (ha : adj_pts ≠ []) (hf : full_pts ≠ []) :
    ∀ vs : List ℝ, (∀ v ∈ vs, v ≠ 0) →
      computeRows adj_pts full_pts label zeta spring_rate mass_kg vs =
        some (vs.map (rowOf adj_pts full_pts label zeta spring_rate mass_kg)) := by
  intro vs
  induction vs with
  | nil => intro _; rfl
  | cons v vs ih =>
    intro hnz
    have hv : v ≠ 0 := hnz v (List.mem_cons_self v vs)
    obtain ⟨a, hae⟩ := Option.isSome_iff_exists.mp (interp_force_isSome v ha)
    obtain ⟨f, hfe⟩ := Option.isSome_iff_exists.mp (interp_force_isSome v hf)
    have hrest := ih fun w hw => hnz w (List.mem_cons_of_mem v hw)
    simp only [computeRows, if_neg hv, hae, hfe, hrest, Option.bind_eq_bind,
      Option.some_bind, List.map_cons, Option.some_inj]
    have hrow : rowOf adj_pts full_pts label zeta spring_rate mass_kg v =
        ⟨label, v, a, f, if f ≤ 0 then 0 else 100 * a / f,
         critical_damping_target zeta spring_rate mass_kg v⟩ := by
      simp [rowOf, hae, hfe]
    rw [hrow]

/-- For positive `v_max` and `v_step` the `np.arange` grid is `0` followed by
the positive multiples of `v_step` below `v_max + 1e-9`. -/
theorem velocityGrid_decomp (v_max v_step : ℝ) (hmax : 0 < v_max)
    (hstep : 0 < v_step) :
    velocityGrid v_max v_step =
      0 :: (List.range' 1 (⌈(v_max + 1 / 1000000000) / v_step⌉₊ - 1)).map
        (fun i : ℕ => (i : ℝ) * v_step) := by
  have hpos : 0 < (v_max + 1 / 1000000000) / v_step := by positivity
  have hn : 0 < ⌈(v_max + 1 / 1000000000) / v_step⌉₊ := Nat.ceil_pos.mpr hpos
  unfold velocityGrid
  rw [List.range_eq_range',
    show ⌈(v_max + 1 / 1000000000) / v_step⌉₊ =
      (⌈(v_max + 1 / 1000000000) / v_step⌉₊ - 1) + 1 by omega,
    List.range'_succ]
  simp

/-- C9 (amended): `compute_table` always succeeds on non-empty sample sets,
and for `v_max > 0`, `v_step > 0` it emits exactly one row per velocity
`i·v_step` (integer `i ≥ 1`) with `i·v_step < v_max + 1e-9` — the code's
float-inclusion epsilon, so a velocity within `1e-9` above `v_max` may also
appear — in ascending velocity order; each row carries the mode label, the
velocity, the two interpolated forces, the inline adjuster percentage and
the ζ-target force. -/
theorem compute_table_rows (adj_pts full_pts : List (ℝ × ℝ)) (label : String)
    (zeta spring_rate mass_kg v_max v_step : ℝ)
    (ha : adj_pts ≠ []) (hf : full_pts ≠ [])
    (hmax : 0 < v_max) (hstep : 0 < v_step) :
    (compute_table adj_pts full_pts label zeta spring_rate mass_kg
      v_max v_step).isSome = true ∧
    ∀ rows, compute_table adj_pts full_pts label zeta spring_rate mass_kg
        v_max v_step = some rows →
      rows.map (fun r => r.velocity) =
        (List.range' 1 (⌈(v_max + 1 / 1000000000) / v_step⌉₊ - 1)).map
          (fun i : ℕ => (i : ℝ) * v_step) ∧
      rows.Pairwise (fun r r' => r.velocity < r'.velocity) ∧
      ∀ r ∈ rows,
        (0 < r.velocity ∧ r.velocity < v_max + 1 / 1000000000) ∧
        r.mode = label ∧
        interp_force r.velocity adj_pts = some r.adjForce ∧
        interp_force r.velocity full_pts = some r.fullForce ∧
        r.adjPct = (if r.fullForce ≤ 0 then 0
                    else 100 * r.adjForce / r.fullForce) ∧
        r.zetaTargetF = critical_damping_target zeta spring_rate mass_kg
          r.velocity := by
  have hgrid := velocityGrid_decomp v_max v_step hmax hstep
  have hnz : ∀ v ∈ (List.range' 1 (⌈(v_max + 1 / 1000000000) / v_step⌉₊ - 1)).map
      (fun i : ℕ => (i : ℝ) * v_step), v ≠ 0 := by
    intro v hv
    obtain ⟨i, hi, rfl⟩ := List.mem_map.mp hv
    have h1 : 1 ≤ i := (List.mem_range'_1.mp hi).1
    have : (0 : ℝ) < (i : ℝ) * v_step := by
      have : (1 : ℝ) ≤ (i : ℝ) := by exact_mod_cast h1
      nlinarith
    exact ne_of_gt this
  have hrows := computeRows_eq_map adj_pts full_pts label zeta spring_rate
    mass_kg ha hf _ hnz
  have htab : compute_table adj_pts full_pts label zeta spring_rate mass_kg
      v_max v_step =
      some (((List.range' 1 (⌈(v_max + 1 / 1000000000) / v_step⌉₊ - 1)).map
        (fun i : ℕ => (i : ℝ) * v_step)).map
          (rowOf adj_pts full_pts label zeta spring_rate mass_kg)) := by
    rw [compute_table, hgrid, computeRows, if_pos rfl, hrows]
  refine ⟨by rw [htab]; rfl, ?_⟩
  intro rows hrowseq
  have hrows' := Option.some_inj.mp (htab.symm.trans hrowseq)
  subst hrows'
  refine ⟨?_, ?_, ?_⟩
  · rw [List.map_map, List.map_map]
    rfl
  · have hpw : (List.range' 1 (⌈(v_max + 1 / 1000000000) / v_step⌉₊ - 1)).Pairwise
        (· < ·) := List.pairwise_lt_range' 1 _ 1 (by omega)
    have hgridpw : ((List.range' 1 (⌈(v_max + 1 / 1000000000) / v_step⌉₊ - 1)).map
        (fun i : ℕ => (i : ℝ) * v_step)).Pairwise (· < ·) :=
      List.Pairwise.map _
        (fun i j hij => mul_lt_mul_of_pos_right (by exact_mod_cast hij) hstep) hpw
    exact List.Pairwise.map _ (fun a b hab => hab) hgridpw
  · intro r hr
    obtain ⟨v, hvmem, rfl⟩ := List.mem_map.mp hr
    obtain ⟨i, hi, rfl⟩ := List.mem_map.mp hvmem
    obtain ⟨h1, h2⟩ := List.mem_range'_1.mp hi
    have hi_lt : i < ⌈(v_max + 1 / 1000000000) / v_step⌉₊ := by omega
    have hvpos : (0 : ℝ) < (i : ℝ) * v_step := by
      have : (1 : ℝ) ≤ (i : ℝ) := by exact_mod_cast h1
      nlinarith
    have hvlt : (i : ℝ) * v_step < v_max + 1 / 1000000000 := by
      have hcast : (i : ℝ) < (v_max + 1 / 1000000000) / v_step :=
        Nat.lt_ceil.mp hi_lt
      have := mul_lt_mul_of_pos_right hcast hstep
      rwa [div_mul_cancel₀ _ (ne_of_gt hstep)] at this
    obtain ⟨a, hae⟩ := Option.isSome_iff_exists.mp
      (interp_force_isSome ((i : ℝ) * v_step) ha)
    obtain ⟨f, hfe⟩ := Option.isSome_iff_exists.mp
      (interp_force_isSome ((i : ℝ) * v_step) hf)
    refine ⟨⟨hvpos, hvlt⟩, rfl, ?_, ?_, rfl, rfl⟩
    · show interp_force ((i : ℝ) * v_step) adj_pts =
        some ((interp_force ((i : ℝ) * v_step) adj_pts).getD 0)
      rw [hae]; rfl
    · show interp_force ((i : ℝ) * v_step) full_pts =
        some ((interp_force ((i : ℝ) * v_step) full_pts).getD 0)
      rw [hfe]; rfl

/-- C9 witness: the theorem applied at one-point channels with
`v_max = v_step = 1`. -/
theorem compute_table_rows_witness :
    ([((0 : ℝ), 1)] ≠ ([] : List (ℝ × ℝ))) ∧ (0 : ℝ) < 1 ∧
    (compute_table [((0 : ℝ), 1)] [((0 : ℝ), 1)] "w" 0 0 0 1 1).isSome = true :=
  ⟨by simp, by norm_num,
   (compute_table_rows [((0 : ℝ), 1)] [((0 : ℝ), 1)] "w" 0 0 0 1 1
     (by simp) (by simp) (by norm_num) (by norm_num)).1⟩

/-- C9 counterexample: with `v_max = 1` and `v_step = 1 + 5·10⁻¹⁰` the grid
point `1·v_step` lies strictly above `v_max` (inside the `1e-9` epsilon
window), yet a row is emitted for it — refuting the claimed grid bound
`0 < v ≤ v_max`. -/
theorem compute_table_range_counterexample :
    compute_table [((1 : ℝ), 1)] [((1 : ℝ), 1)] "c" 0 0 0 1
        (2000000001 / 2000000000) =
      some [⟨"c", 2000000001 / 2000000000, 1, 1, 100, 0⟩] ∧
    ¬ ((2000000001 / 2000000000 : ℝ) ≤ 1) := by
  constructor
  · have hceil : ⌈((1 : ℝ) + 1 / 1000000000) / (2000000001 / 2000000000)⌉₊ = 2 := by
      rw [Nat.ceil_eq_iff (by norm_num)]
      norm_num
    have hgrid : velocityGrid 1 (2000000001 / 2000000000) =
        [0, 2000000001 / 2000000000] := by
      unfold velocityGrid
      rw [hceil]
      norm_num [List.range_succ]
    have hinterp : interp_force ((2000000001 : ℝ) / 2000000000) [((1 : ℝ), 1)] =
        some 1 := by
      unfold interp_force sortPts
      norm_num [List.insertionSort, List.orderedInsert, interpSorted, lastPt]
    have hcdt : critical_damping_target 0 0 0 (2000000001 / 2000000000) = 0 := by
      unfold critical_damping_target
      norm_num
    rw [compute_table, hgrid, computeRows, if_pos rfl, computeRows,
      if_neg (by norm_num : ¬((2000000001 : ℝ) / 2000000000 = 0)), hinterp]
    simp only [Option.bind_eq_bind, Option.some_bind, computeRows, hcdt]
    norm_num
  · norm_num

/-- The inline percentage of each emitted row agrees with
`adjuster_authority_percent` at that row's velocity. -/
theorem computeRows_adjpct (adj_pts full_pts : List (ℝ × ℝ)) (label : String)
    (zeta spring_rate mass_kg : ℝ) :
    ∀ (vs : List ℝ) (rows : List TableRow),
      computeRows adj_pts full_pts label zeta spring_rate mass_kg vs =
        some rows →
      ∀ r ∈ rows,
        adjuster_authority_percent r.velocity adj_pts full_pts =
          some r.adjPct := by
  intro vs
  induction vs with
  | nil =>
    intro rows h r hr
    simp only [computeRows, Option.some_inj] at h
    subst h
    simp at hr
  | cons v vs ih =>
    intro rows h r hr
    by_cases hv : v = 0
    · rw [computeRows, if_pos hv] at h
      exact ih rows h r hr
    · rw [computeRows, if_neg hv] at h
      cases hae : interp_force v adj_pts with
      | none => rw [hae] at h; simp at h
      | some a =>
        cases hfe : interp_force v full_pts with
        | none => rw [hae, hfe] at h; simp at h
        | some f =>
          cases hre : computeRows adj_pts full_pts label zeta spring_rate
              mass_kg vs with
          | none => rw [hae, hfe, hre] at h; simp at h
          | some rest =>
            rw [hae, hfe, hre] at h
            simp only [Option.bind_eq_bind, Option.some_bind,
              Option.some_inj] at h
            subst h
            rcases List.mem_cons.mp hr with rfl | hr'
            · show adjuster_authority_percent v adj_pts full_pts =
                some (if f ≤ 0 then 0 else 100 * a / f)
              by_cases h0 : f ≤ 0
              · simp [adjuster_authority_percent, hae, hfe, h0]
              · simp [adjuster_authority_percent, hae, hfe, h0,
                  mul_div_assoc]
            · exact ih rest hre r hr'

/-- C10: every `Adj %` value that `compute_table` writes coincides with the
named operation `adjuster_authority_percent` evaluated at the row's
velocity on the same sample sets. -/
theorem compute_table_adjpct_refines (adj_pts full_pts : List (ℝ × ℝ))
    (label : String) (zeta spring_rate mass_kg v_max v_step : ℝ)
    (rows : List TableRow)
    (hrows : compute_table adj_pts full_pts label zeta spring_rate mass_kg
      v_max v_step = some rows) :
    ∀ r ∈ rows,
      adjuster_authority_percent r.velocity adj_pts full_pts =
        some r.adjPct :=
  computeRows_adjpct adj_pts full_pts label zeta spring_rate mass_kg _ rows
    hrows

/-- C10 witness: on the concrete table of `compute_table [(0,1)] [(0,1)] "w"
0 0 0 1 1` the single row's inline percentage equals the named operation's
output. -/
theorem compute_table_adjpct_refines_witness :
    adjuster_authority_percent (1 : ℝ) [((0 : ℝ), 1)] [((0 : ℝ), 1)] =
      some 100 := by
  have hceil : ⌈((1 : ℝ) + 1 / 1000000000) / 1⌉₊ = 2 := by
    rw [Nat.ceil_eq_iff (by norm_num)]
    norm_num
  have hgrid : velocityGrid 1 1 = [0, 1] := by
    unfold velocityGrid
    rw [hceil]
    norm_num [List.range_succ]
  have hinterp : interp_force (1 : ℝ) [((0 : ℝ), 1)] = some 1 := by
    unfold interp_force sortPts
    norm_num [List.insertionSort, List.orderedInsert, interpSorted, lastPt]
  have hcdt : critical_damping_target 0 0 0 1 = 0 := by
    unfold critical_damping_target
    norm_num
  have htable : compute_table [((0 : ℝ), 1)] [((0 : ℝ), 1)] "w" 0 0 0 1 1 =
      some [⟨"w", 1, 1, 1, 100, 0⟩] := by
    rw [compute_table, hgrid, computeRows, if_pos rfl, computeRows,
      if_neg (by norm_num : ¬((1 : ℝ) = 0)), hinterp]
    simp only [Option.bind_eq_bind, Option.some_bind, computeRows, hcdt]
    norm_num
  have h := compute_table_adjpct_refines [((0 : ℝ), 1)] [((0 : ℝ), 1)] "w"
    0 0 0 1 1 [⟨"w", 1, 1, 1, 100, 0⟩] htable ⟨"w", 1, 1, 1, 100, 0⟩
    (List.mem_singleton.mpr rfl)
  exact h

end PressureBalance
